import Mathlib

/-!
# Verification of the game-sage-agent comment-harvesting pipeline

Shallow embedding of `src/utils/bilibili_utils/comments_crawler.py`
(`BilibiliCommentsCrawler`) and of the orchestrator
`src/tools/bilibili_tool.py` (`BilibiliTool._arun`), together with theorems
settling the specification claims about them.

Modelling conventions:
* The configuration constants imported from `configs/utils_config.py`
  (a file not shipped in this snapshot) are carried as explicit parameters
  in a `Config` record; the claims are stated parametrically in them, so no
  concrete value is assumed.  The "cap unset" (`None` / `0`) branches of the
  crawler, which paginate without a page bound, are outside the model: the
  claims all concern positive caps, and every theorem that needs it carries
  `0 < cap` as a hypothesis.
* Network traffic is a pure environment: a function from (page, attempt)
  to the observed outcome of that HTTP attempt.  The random pre-request
  jitter sleeps (`random.uniform`) are not retry delays and are ignored;
  retry delays are recorded as naturals `baseDelay * multiplier`.
* The `except Exception` catch-all branches of the crawler (unexpected
  non-network exceptions) are not modelled; every observable outcome of an
  attempt is covered by `Attempt` below.
-/

namespace GameSage

/-- Configuration surface of the crawler (constants imported from
`configs/utils_config.py` in the source).  `baseDelay` is
`BILIBILI_COMMENTS_RETRY_DELAY_SECONDS` in abstract time units. -/
structure Config where
  maxRetries : Nat      -- BILIBILI_COMMENTS_MAX_RETRIES
  baseDelay : Nat       -- BILIBILI_COMMENTS_RETRY_DELAY_SECONDS
  pageSize : Nat        -- BILIBILI_COMMENTS_COMMENT_PAGE_SIZE
  maxNum : Nat          -- BILIBILI_COMMENTS_MAX_NUM (root-comment cap)
  maxReplies : Nat      -- BILIBILI_COMMENTS_MAX_REPLIES_PER_COMMENT
  minLen : Nat          -- BILIBILI_COMMENTS_LENGTH_MIN
  deriving Repr

/-- The reply-page size is hard-coded to `10` in `_fetch_sub_comments`
(`sub_comment_page_size = 10`). -/
def subPageSize : Nat := 10

/-- One raw entry of an upstream page payload (`replies` array element).
`content = some m` models a `content` field that is a dict containing a
`message` key with value `m`; `content = none` models any malformed shape
(missing dict, missing key).  `rpid`/`rcount` model `reply.get('rpid')` and
`reply.get('rcount', 0)`. -/
structure RawReply where
  content : Option String
  rpid : Option Nat
  rcount : Nat
  deriving Repr, DecidableEq

/-- Parsed body of a successful page response: `code`, `data.replies`, and
`data.cursor.is_end`. -/
structure PagePayload where
  code : Int
  replies : List RawReply
  isEnd : Bool
  deriving Repr, DecidableEq

/-- Observable outcome of one HTTP attempt of a comment-page request:
either a response with an HTTP status and an optionally JSON-decodable
body, or a transport failure (`aiohttp.ClientError` / `asyncio.TimeoutError`). -/
inductive Attempt where
  | response (status : Nat) (data : Option PagePayload)
  | net
  deriving Repr

/-- The decision the retry loops of `_fetch_comment_page` /
`_fetch_sub_comments` take on one attempt outcome. -/
inductive StepKind where
  | success (p : PagePayload)   -- HTTP 200, `code == 0`
  | closed                      -- API code 12002 / -404
  | retry                       -- any other status/code/JSON/transport failure
  deriving Repr, DecidableEq

/-- Branch decision of the page retry loops: a non-200 status (including
412), undecodable JSON, or an API code other than `0`, `12002`, `-404` is
retryable; `code == 0` succeeds with the payload; `12002` / `-404` end the
thread. -/
def classifyAttempt : Attempt → StepKind
  | .response s d =>
      if s ≠ 200 then .retry
      else match d with
        | some p =>
          if p.code = 0 then .success p
          else if p.code = 12002 ∨ p.code = -404 then .closed
          else .retry
        | none => .retry
  | .net => .retry

/-- Whether one attempt outcome makes the page retry loops retry. -/
def Attempt.retryable (a : Attempt) : Bool :=
  match classifyAttempt a with
  | .retry => true
  | _ => false

/-- The inter-attempt sleep the crawler performs after failed attempt `i`
(0-based): `baseDelay * (i+1)` for HTTP 412 responses and for transport
errors, plain `baseDelay` for every other retryable failure
(lines 161-163, 173-174, 300-302, 315-316 of the source). -/
def delayFor (baseDelay i : Nat) : Attempt → Nat
  | .response s _ => if s = 412 then baseDelay * (i + 1) else baseDelay
  | .net => baseDelay * (i + 1)

/-- Result of one page request after the retry loop. -/
inductive FetchOutcome where
  | success (p : PagePayload)
  | closed            -- API code 12002 / -404: comments ended or closed
  | exhausted         -- every retry failed
  deriving Repr, DecidableEq

/-- Trace of one page request: final outcome, the inter-attempt delays
slept, and the number of HTTP attempts issued. -/
structure RetryResult where
  outcome : FetchOutcome
  delays : List Nat
  attempts : Nat
  deriving Repr, DecidableEq

/-- Retry loop shared by `_fetch_comment_page` and the per-page retry loop
of `_fetch_sub_comments` (`for attempt in range(BILIBILI_COMMENTS_MAX_RETRIES)`).
`i` is the 0-based attempt index; `fuel` is `maxRetries - i`, kept in sync
by construction so the recursion is structural. -/
def fetchRetryGo (maxRetries baseDelay : Nat) (att : Nat → Attempt) :
    Nat → Nat → RetryResult
  | _, 0 => ⟨.exhausted, [], 0⟩
  | i, fuel + 1 =>
    match classifyAttempt (att i) with
    | .success p => ⟨.success p, [], 1⟩
    | .closed => ⟨.closed, [], 1⟩
    | .retry =>
      if i < maxRetries - 1 then
        let r := fetchRetryGo maxRetries baseDelay att (i + 1) fuel
        ⟨r.outcome, delayFor baseDelay i (att i) :: r.delays, r.attempts + 1⟩
      else ⟨.exhausted, [], 1⟩

/-- One comment-page request with retries, as performed by
`_fetch_comment_page` and by one iteration of `_fetch_sub_comments`. -/
def fetchRetry (maxRetries baseDelay : Nat) (att : Nat → Attempt) : RetryResult :=
  fetchRetryGo maxRetries baseDelay att 0 maxRetries

/-- Observable outcome of one attempt of the BVID→AID resolution request
(`_get_aid_from_bvid`): `ok a` is HTTP 200 with `code == 0` and an `aid`
field equal to `a` (the source treats `aid = 0` as falsy, hence as an
error); `notFound` is an `error_code == -404` body; `err` is any other
failed status/code/payload; `net` is a transport failure. -/
inductive AidAttempt where
  | ok (aid : Nat)
  | notFound
  | err
  | net
  deriving Repr, DecidableEq

/-- Trace of one BVID→AID resolution: resolved id (if any), inter-attempt
delays, and number of HTTP attempts. -/
structure AidResult where
  aid : Option Nat
  delays : List Nat
  attempts : Nat
  deriving Repr, DecidableEq

/-- Branch decision of `_get_aid_from_bvid` on one attempt outcome: a
successful payload with a truthy `aid` resolves; an `error_code == -404`
body fails terminally with no retry (`return None`); everything else
(including a falsy `aid = 0`) is retried. -/
inductive AidStep where
  | found (aid : Nat)
  | fatal
  | retry
  deriving Repr, DecidableEq

/-- Classifier of `_get_aid_from_bvid` attempt outcomes. -/
def classifyAid : AidAttempt → AidStep
  | .ok a => if a = 0 then .retry else .found a
  | .notFound => .fatal
  | .err => .retry
  | .net => .retry

/-- Retry loop of `_get_aid_from_bvid`: success returns the aid at once; a
`-404` code returns `None` immediately with no retry; every other failure
sleeps `baseDelay * (i+1)` and retries, up to `maxRetries` attempts. -/
def getAidGo (maxRetries baseDelay : Nat) (att : Nat → AidAttempt) :
    Nat → Nat → AidResult
  | _, 0 => ⟨none, [], 0⟩
  | i, fuel + 1 =>
    match classifyAid (att i) with
    | .found a => ⟨some a, [], 1⟩
    | .fatal => ⟨none, [], 1⟩
    | .retry =>
      if i < maxRetries - 1 then
        let r := getAidGo maxRetries baseDelay att (i + 1) fuel
        ⟨r.aid, baseDelay * (i + 1) :: r.delays, r.attempts + 1⟩
      else ⟨none, [], 1⟩

/-- `_get_aid_from_bvid`, as a function of the per-attempt outcomes. -/
def getAid (cfg : Config) (att : Nat → AidAttempt) : AidResult :=
  getAidGo cfg.maxRetries cfg.baseDelay att 0 cfg.maxRetries

/-- A root comment accepted by `_process_main_replies`: its text, its
`rpid`, and its stated reply count. -/
structure MainComment where
  message : String
  rpid : Option Nat
  rcount : Nat
  deriving Repr, DecidableEq

/-- `_process_main_replies`: keeps exactly the entries whose `content` is a
dict with a `message` key of length at least `BILIBILI_COMMENTS_LENGTH_MIN`. -/
def processMainReplies (minLen : Nat) : List RawReply → List MainComment
  | [] => []
  | r :: rs =>
    match r.content with
    | some m =>
      if minLen ≤ m.length then
        ⟨m, r.rpid, r.rcount⟩ :: processMainReplies minLen rs
      else processMainReplies minLen rs
    | none => processMainReplies minLen rs

/-- The per-page filter of `_fetch_sub_comments` (lines 262-268): a reply
contributes its `message` exactly when its `content` is well-formed and the
message has length at least `BILIBILI_COMMENTS_LENGTH_MIN`. -/
def processSubReplies (minLen : Nat) : List RawReply → List String
  | [] => []
  | r :: rs =>
    match r.content with
    | some m =>
      if minLen ≤ m.length then m :: processSubReplies minLen rs
      else processSubReplies minLen rs
    | none => processSubReplies minLen rs

/-- Result of one reply-thread harvest (`_fetch_sub_comments`): the
collected reply texts in upstream order, and the number of reply-page
requests issued. -/
structure SubLoopResult where
  comments : List String
  requests : Nat
  deriving Repr, DecidableEq

/-- Page loop of `_fetch_sub_comments` for one root comment.  `att` gives
the outcome of attempt `a` of the request for reply page `p` as `att p a`.
`fuel` is `maxPages + 1 - pageNum` where `maxPages =
ceil(maxReplies / subPageSize)`; the source's `page_num > max_pages` break
is the `fuel = 0` case.  Each page: fetch with retries; a closed or
exhausted page is a soft end returning what was collected; a page with no
replies, a filled cap, or an `is_end` cursor also ends the thread;
otherwise the accepted replies of the page (truncated to the remaining
capacity before filtering, as in the source) are appended and the next
page is fetched. -/
def subLoopGo (cfg : Config) (att : Nat → Nat → Attempt) :
    Nat → Nat → Nat → List String → SubLoopResult
  | 0, _, _, acc => ⟨acc, 0⟩
  | fuel + 1, pageNum, fetchedCount, acc =>
    match (fetchRetry cfg.maxRetries cfg.baseDelay (att pageNum)).outcome with
    | .closed => ⟨acc, 1⟩
    | .exhausted => ⟨acc, 1⟩
    | .success p =>
      if p.replies.isEmpty then ⟨acc, 1⟩
      else if cfg.maxReplies ≤ fetchedCount then ⟨acc, 1⟩
      else
        let toProcess := p.replies.take (cfg.maxReplies - fetchedCount)
        let accepted := processSubReplies cfg.minLen toProcess
        let fetched' := fetchedCount + accepted.length
        let acc' := acc ++ accepted
        if cfg.maxReplies ≤ fetched' then ⟨acc', 1⟩
        else if p.isEnd then ⟨acc', 1⟩
        else
          let r := subLoopGo cfg att fuel (pageNum + 1) fetched' acc'
          ⟨r.comments, r.requests + 1⟩

/-- `ceil(maxReplies / subPageSize)`, the reply-page bound of
`_fetch_sub_comments` (`max_pages`). -/
def subMaxPages (cfg : Config) : Nat :=
  (cfg.maxReplies + subPageSize - 1) / subPageSize

/-- `_fetch_sub_comments` for one root comment (positive-cap branch). -/
def subFetchAll (cfg : Config) (att : Nat → Nat → Attempt) : SubLoopResult :=
  subLoopGo cfg att (subMaxPages cfg) 1 0 []

/-- Result of the root-comment pagination loop of `get_comments`
(lines 361-406): the accepted root comments in discovery order, the number
of root-page requests issued, and the item error surfaced when the very
first page fails. -/
structure MainLoopResult where
  comments : List MainComment
  requests : Nat
  error : Option String
  deriving Repr, DecidableEq

/-- `ceil(maxNum / pageSize)`, the root-page bound of `get_comments`
(`max_pages`). -/
def mainMaxPages (cfg : Config) : Nat :=
  (cfg.maxNum + cfg.pageSize - 1) / cfg.pageSize

/-- Outcome of `_fetch_comment_page` as seen by `get_comments`: both a
closed thread (API code 12002 / -404) and retry exhaustion surface as
`None`. -/
def mainPageFetch (cfg : Config) (att : Nat → Nat → Attempt) (pageNum : Nat) :
    Option PagePayload :=
  match (fetchRetry cfg.maxRetries cfg.baseDelay (att pageNum)).outcome with
  | .success p => some p
  | .closed => none
  | .exhausted => none

/-- Root-comment pagination loop of `get_comments`.  `fuel` is
`maxPages + 1 - pageNum` (the `page_num > max_pages` break is `fuel = 0`).
A `None` page on page 1 with nothing collected sets the item error; a
`None` page later is a soft end; an empty page ends pagination; the
accepted roots of a page are appended up to the remaining capacity. -/
def mainLoopGo (cfg : Config) (att : Nat → Nat → Attempt) (aid : Nat) :
    Nat → Nat → List MainComment → MainLoopResult
  | 0, _, acc => ⟨acc, 0, none⟩
  | fuel + 1, pageNum, acc =>
    match mainPageFetch cfg att pageNum with
    | none =>
      if pageNum = 1 ∧ acc.isEmpty then
        ⟨acc, 1,
          some ("Failed initial comment fetch/Comments closed: AID " ++
            toString aid ++ ".")⟩
      else ⟨acc, 1, none⟩
    | some p =>
      if p.replies.isEmpty then ⟨acc, 1, none⟩
      else
        let processed := processMainReplies cfg.minLen p.replies
        if cfg.maxNum ≤ acc.length then ⟨acc, 1, none⟩
        else
          let toAdd := processed.take (cfg.maxNum - acc.length)
          let r := mainLoopGo cfg att aid fuel (pageNum + 1) (acc ++ toAdd)
          ⟨r.comments, r.requests + 1, r.error⟩

/-- The root-comment harvest of `get_comments` (positive-cap branch). -/
def rootHarvest (cfg : Config) (att : Nat → Nat → Attempt) (aid : Nat) :
    MainLoopResult :=
  mainLoopGo cfg att aid (mainMaxPages cfg) 1 []

/-- The credentials bundle handed to `BilibiliCommentsCrawler`: a cookie
string, a list of name/value pairs, or absent (`None`). -/
inductive Cookies where
  | absent
  | str (s : String)
  | pairs (l : List (String × String))
  deriving Repr, DecidableEq

/-- Python truthiness of the bundle, as tested by
`if not self.cookies` in `get_comments`: `None`, the empty string and the
empty list are falsy. -/
def Cookies.falsy : Cookies → Bool
  | .absent => true
  | .str s => s.isEmpty
  | .pairs l => l.isEmpty

/-- One character of the BVID body: `[a-zA-Z0-9]`. -/
def isBvidChar (c : Char) : Bool := c.isAlpha || c.isDigit

/-- A match of the regex `BV([a-zA-Z0-9]{10})` anchored at the head of the
character list. -/
def bvidHere : List Char → Option (List Char)
  | 'B' :: 'V' :: rest =>
    let body := rest.take 10
    if body.length = 10 && body.all isBvidChar then
      some ('B' :: 'V' :: body)
    else none
  | _ => none

/-- Leftmost match of `BV([a-zA-Z0-9]{10})`, as found by `re.search`. -/
def findBvid : List Char → Option (List Char)
  | [] => none
  | c :: cs =>
    match bvidHere (c :: cs) with
    | some b => some b
    | none => findBvid cs

/-- `_extract_bvid_from_url`. -/
def extractBvid (url : String) : Option String :=
  (findBvid url.data).map (fun l => ⟨l⟩)

/-- The pure network environment of one `get_comments` run:
`aidAttempts i` is the outcome of attempt `i` of the BVID→AID resolution;
`mainAttempts p a` the outcome of attempt `a` of the request for root page
`p`; `subAttempts r p a` the outcome of attempt `a` of the request for page
`p` of the reply thread rooted at rpid `r`.  Roots fetched in one run are
assumed to carry distinct rpids (upstream rpids are globally unique comment
ids), so reply-thread results are a function of the rpid. -/
structure CrawlEnv where
  aidAttempts : Nat → AidAttempt
  mainAttempts : Nat → Nat → Attempt
  subAttempts : Nat → Nat → Nat → Attempt

/-- The reply texts attached to one collected root at assembly time
(`sub_comments_results.get(rpid, []) if rpid is not None else []`): a
reply-thread fetch ran for the root only if it had `rcount > 0` and a
present `rpid` (line 398); otherwise the lookup yields `[]`. -/
def subCommentsFor (cfg : Config) (env : CrawlEnv) (m : MainComment) :
    List String :=
  match m.rpid with
  | some r =>
    if 0 < m.rcount then (subFetchAll cfg (env.subAttempts r)).comments
    else []
  | none => []

/-- Reply-page requests issued on behalf of one collected root. -/
def subRequestsFor (cfg : Config) (env : CrawlEnv) (m : MainComment) : Nat :=
  match m.rpid with
  | some r =>
    if 0 < m.rcount then (subFetchAll cfg (env.subAttempts r)).requests
    else 0
  | none => 0

/-- One flattened output string: the root text followed by each collected
reply prefixed with the reply marker (`f" [回复] {sub}"`), in order. -/
def flattenComment (msg : String) (subs : List String) : String :=
  msg ++ String.join (subs.map (fun s => " [回复] " ++ s))

/-- Final assembly loop of `get_comments` (lines 432-446): roots shorter
than the minimum length are skipped (a re-check that is vacuous for roots
accepted by `_process_main_replies`), the rest are flattened with their
replies in discovery order. -/
def assembleComments (cfg : Config) (env : CrawlEnv)
    (acc : List MainComment) : List String :=
  acc.filterMap fun m =>
    if m.message.length < cfg.minLen then none
    else some (flattenComment m.message (subCommentsFor cfg env m))

/-- The `{bvid, comments, error}` dict returned by `get_comments`. -/
structure CrawlResult where
  bvid : Option String
  comments : List String
  error : Option String
  deriving Repr, DecidableEq

/-- `get_comments`, paired with the total number of network requests the
run issues (AID attempts plus root-page and reply-page fetches).  The
stages in source order: BVID extraction, the credentials check, BVID→AID
resolution, root pagination, reply fan-out, assembly. -/
def getCommentsFull (cfg : Config) (cookies : Cookies) (url : String)
    (env : CrawlEnv) : CrawlResult × Nat :=
  match extractBvid url with
  | none => (⟨none, [], some "Failed to extract BVID from URL."⟩, 0)
  | some bvid =>
    if cookies.falsy then
      (⟨some bvid, [], some "Cookies not loaded."⟩, 0)
    else
      let ar := getAid cfg env.aidAttempts
      match ar.aid with
      | none =>
        (⟨some bvid, [],
          some ("Failed to get AID for BVID " ++ bvid ++ ".")⟩, ar.attempts)
      | some aid =>
        let ml := rootHarvest cfg env.mainAttempts aid
        let subReqs := (ml.comments.map (subRequestsFor cfg env)).sum
        (⟨some bvid, assembleComments cfg env ml.comments, ml.error⟩,
          ar.attempts + ml.requests + subReqs)

/-- `get_comments` proper (the returned result dict). -/
def getComments (cfg : Config) (cookies : Cookies) (url : String)
    (env : CrawlEnv) : CrawlResult :=
  (getCommentsFull cfg cookies url env).1

/-! ## Orchestrator: `BilibiliTool._arun` (`src/tools/bilibili_tool.py`)

The per-video jobs are abstracted to their formatted outputs in completion
order (`asyncio.as_completed`); a job that raises a non-cancellation
exception is logged and skipped.  The single global deadline is modelled by
the suspension point at which `asyncio.wait_for`'s cancellation is
delivered to `full_tool_operation`.  The LLM is a pure function
`query → text → summary`. -/

/-- One completed per-video job as seen by the `as_completed` loop. -/
inductive JobEvent where
  | ok (text : String)
  | failed
  deriving Repr, DecidableEq

/-- The suspension point at which the deadline cancellation reaches
`full_tool_operation`; `noTimeout` is a run that finishes in time.
`atJobAwait k` is a cancellation delivered at the `await task_future` of
the `(k+1)`-th loop iteration, after `k` completions were appended. -/
inductive CancelPoint where
  | noTimeout
  | beforeLoop
  | atJobAwait (k : Nat)
  | duringSummary
  deriving Repr, DecidableEq

/-- `_llm_summary`: empty text is returned untouched; otherwise the LLM
processes it (the LLM-unavailable and exception fallbacks also return the
text untouched and are subsumed by the choice of `llm`). -/
def llmSummaryStep (llm : String → String → String) (query t : String) :
    String :=
  if t.isEmpty then t else llm query t

/-- Python `str.strip()`: drop leading and trailing whitespace
(character-level, kernel-computable). -/
def pyStrip (s : String) : String :=
  ⟨((s.data.dropWhile Char.isWhitespace).reverse.dropWhile
    Char.isWhitespace).reverse⟩

/-- Body of the raw (no-summary) branch of `_assemble_outputs`:
`f"#### 视频 {i+1}\n{text}\n\n"` per video, concatenated and stripped. -/
def rawAssemblyBody (outs : List String) : String :=
  pyStrip (String.join (outs.enum.map
    (fun p => "#### 视频 " ++ toString (p.1 + 1) ++ "\n" ++ p.2 ++ "\n\n")))

/-- The raw (no-summary) branch of `_assemble_outputs`. -/
def rawAssembly (query : String) (outs : List String) : String :=
  "针对用户问题：" ++ query ++ "，以下是来自B站 " ++ toString outs.length ++
    " 个视频的具体内容：\n\n" ++ rawAssemblyBody outs

/-- The LLM-summary branch of `_assemble_outputs`: each video text is
summarized individually, then concatenated and stripped. -/
def summaryAssembly (llm : String → String → String) (query : String)
    (outs : List String) : String :=
  let processed := outs.map (llmSummaryStep llm query)
  pyStrip ("针对用户问题：" ++ query ++ "，以下是基于B站 " ++
    toString processed.length ++ " 个视频内容的分析与摘要：\n\n" ++
    String.join (processed.enum.map
      (fun p => "--- 视频 " ++ toString (p.1 + 1) ++ " 内容解读 ---\n" ++
        p.2 ++ "\n\n")))

/-- `_assemble_outputs`. -/
def assembleOutputs (llm : String → String → String) (query : String)
    (outs : List String) (llmSummary : Bool) : String :=
  if outs.isEmpty then
    if llmSummary then "没有找到相关视频内容可供总结。" else "没有找到相关视频内容。"
  else if llmSummary then summaryAssembly llm query outs
  else rawAssembly query outs

/-- The accumulator (`partial_results_list`) after the first `k` loop
iterations: the outputs of the completed jobs among them, in completion
order; failed jobs are skipped. -/
def accAfter (jobs : List JobEvent) (k : Nat) : List String :=
  (jobs.take k).filterMap fun e =>
    match e with
    | .ok t => some t
    | .failed => none

/-- The tail of `full_tool_operation` once its `as_completed` loop has
ended with `k` iterations processed: the "nothing processed" message when
the accumulator is empty, otherwise `_assemble_outputs` with
`llm_summary=True`. -/
def fullOperationTail (llm : String → String → String) (query : String)
    (jobs : List JobEvent) (k : Nat) : String :=
  let acc := accAfter jobs k
  if acc.isEmpty then
    "未能处理与 '" ++ query ++ "' 相关的任何Bilibili视频信息" ++
      "（可能是因为所有视频处理均失败或内容不适用）。"
  else assembleOutputs llm query acc true

/-- What `_arun` returns, together with whether it was produced by the
`except asyncio.TimeoutError` branch (the run's only truncation marker is
the message prefix built there). -/
structure ToolOutcome where
  text : String
  timedOut : Bool
  deriving Repr, DecidableEq

/-- The timeout message of `_arun` when nothing was collected. -/
def timeoutEmptyMsg (query : String) (timeoutSecs : Nat) : String :=
  "Bilibili工具处理查询 '" ++ query ++ "' 超时（" ++ toString timeoutSecs ++
    "秒）。在超时前未能获取到任何视频的有效信息。"

/-- The timeout message of `_arun` wrapping the fallback assembly of the
collected partial results (built with `llm_summary=False`). -/
def timeoutPartialMsg (query : String) (timeoutSecs : Nat)
    (outs : List String) : String :=
  "处理查询 '" ++ query ++ "' 超时（" ++ toString timeoutSecs ++ "秒）。" ++
    "以下是已获取的部分视频的详细信息（可能未经最终摘要处理）：\n" ++
    assembleOutputs (fun _ t => t) query outs false

/-- `BilibiliTool._arun` under asyncio semantics (Python ≥ 3.8).

* `noTimeout`: every job completes; the full path runs, ending in the
  LLM-summary assembly.
* `beforeLoop`: the cancellation is delivered before the loop (cookie
  loading, search, or fan-out); it propagates, `asyncio.wait_for` raises
  `TimeoutError`, and the accumulator is empty.
* `atJobAwait k`: the cancellation is delivered at `await task_future`;
  the `except asyncio.CancelledError: break` handler swallows it, so
  `full_tool_operation` resumes after the loop, runs the LLM-summary
  assembly over the `k` collected outputs, and completes normally —
  `asyncio.wait_for` then returns that value and the `TimeoutError`
  branch never executes.
* `duringSummary`: the cancellation is delivered inside an
  `llm.ainvoke` await of the summary phase; it propagates (the handler
  there catches only `Exception`), `wait_for` raises `TimeoutError`, and
  the fallback assembles every collected output without the LLM. -/
def arunModel (llm : String → String → String) (query : String)
    (timeoutSecs : Nat) (jobs : List JobEvent) (cancel : CancelPoint) :
    ToolOutcome :=
  if jobs.isEmpty then
    match cancel with
    | .beforeLoop => ⟨timeoutEmptyMsg query timeoutSecs, true⟩
    | _ => ⟨"未能找到与 '" ++ query ++ "' 相关的Bilibili视频。", false⟩
  else
    match cancel with
    | .noTimeout => ⟨fullOperationTail llm query jobs jobs.length, false⟩
    | .atJobAwait k =>
      ⟨fullOperationTail llm query jobs (min k jobs.length), false⟩
    | .beforeLoop => ⟨timeoutEmptyMsg query timeoutSecs, true⟩
    | .duringSummary =>
      let acc := accAfter jobs jobs.length
      if acc.isEmpty then ⟨timeoutEmptyMsg query timeoutSecs, true⟩
      else ⟨timeoutPartialMsg query timeoutSecs acc, true⟩

/-! ## Concrete demonstration inputs -/

/-- A demonstration configuration: 2 retries, unit base delay, root pages
of 20, root cap 20, reply cap 5, minimum length 5. -/
def demoCfg : Config := ⟨2, 1, 20, 20, 5, 5⟩

/-- An upstream whose every reply page carries one single reply of text
`"hi"` (well-formed `content`, length 2) and an end-of-thread cursor. -/
def shortReplyAtt : Nat → Nat → Attempt := fun _ _ =>
  .response 200 (some ⟨0, [⟨some "hi", none, 0⟩], true⟩)

/-- An upstream whose every reply page carries one single reply of text
`"helloworld"` (length 10) and an end-of-thread cursor. -/
def longReplyAtt : Nat → Nat → Attempt := fun _ _ =>
  .response 200 (some ⟨0, [⟨some "helloworld", none, 0⟩], true⟩)

/-- An upstream where every HTTP attempt is a transport failure. -/
def attAllFail : Nat → Nat → Attempt := fun _ _ => .net

/-- An environment where every request of every kind fails on transport. -/
def demoEnvFail : CrawlEnv := ⟨fun _ => .net, attAllFail, fun _ => attAllFail⟩

/-- A successful single-root single-reply environment: the AID resolves
to `99`, root page 1 carries one root (`"rootmsg"`, rpid 1, one reply),
and the reply thread of rpid 1 carries one reply. -/
def demoEnvOk : CrawlEnv :=
  ⟨fun _ => .ok 99,
   fun _ _ => .response 200 (some ⟨0, [⟨some "rootmsg", some 1, 1⟩], true⟩),
   fun _ => longReplyAtt⟩

/-- An ideal root-comment upstream serving a fixed list `l` in pages of
`pageSize`: every request succeeds on the first attempt with `code = 0`;
page `p` carries the `p`-th chunk of `l` and the cursor flags the end once
`l` is exhausted (the root loop ignores the cursor). -/
def listMainAtt (l : List RawReply) (pageSize : Nat) : Nat → Nat → Attempt :=
  fun page _ =>
    .response 200 (some ⟨0, (l.drop (pageSize * (page - 1))).take pageSize,
      decide (l.length ≤ pageSize * page)⟩)

/-- An ideal reply-thread upstream serving a fixed list `rs` in pages of
`subPageSize`, every request succeeding on the first attempt. -/
def listSubAtt (rs : List RawReply) : Nat → Nat → Attempt :=
  fun page _ =>
    .response 200 (some ⟨0, (rs.drop (subPageSize * (page - 1))).take subPageSize,
      decide (rs.length ≤ subPageSize * page)⟩)

/-- A well-formed root/reply entry whose text has length `n` (so it passes
any filter with `MinLength ≤ n`). -/
def longEntry (n : Nat) : RawReply := ⟨some ⟨List.replicate n 'x'⟩, none, 0⟩

/-- The root-loop configuration of the C3 counterexample: one retry, root
pages of 2, root cap 2, minimum length 3. -/
def cfgC3 : Config := ⟨1, 1, 2, 2, 5, 3⟩

/-- Upstream roots of the C3 counterexample: two short roots on page 1,
two long (accepted) roots on page 2. -/
def rootsC3 : List RawReply :=
  [⟨some "a", none, 0⟩, ⟨some "b", none, 0⟩,
   ⟨some "xxx", none, 0⟩, ⟨some "yyy", none, 0⟩]

/-- The reply-loop configuration of the C4 counterexample: one retry,
reply cap 5, minimum length 3. -/
def cfgC4 : Config := ⟨1, 1, 20, 20, 5, 3⟩

/-- Reply thread of the C4 counterexample: a single short reply. -/
def repliesC4 : List RawReply := [⟨some "ab", none, 0⟩]

/-- A demonstration summarizer that wraps each text. -/
def demoLlmA : String → String → String := fun _ t => "SUM[" ++ t ++ "]"

/-- A second, distinguishable demonstration summarizer. -/
def demoLlmB : String → String → String := fun _ _ => "ALT"

/-- Two jobs, both completing successfully, in completion order. -/
def demoJobs : List JobEvent := [.ok "A", .ok "B"]

/-! ## Helper lemmas -/

/-- Every reply text kept by the per-page filter of `_fetch_sub_comments`
meets the minimum length. -/
theorem processSubReplies_minLen (minLen : Nat) :
    ∀ l : List RawReply, ∀ s ∈ processSubReplies minLen l, minLen ≤ s.length := by
  intro l
  induction l with
  | nil => intro s hs; simp [processSubReplies] at hs
  | cons r rs ih =>
    obtain ⟨c, rp, rc⟩ := r
    intro s hs
    cases c with
    | none => exact ih s (by simpa [processSubReplies] using hs)
    | some m =>
      by_cases hlen : minLen ≤ m.length
      · simp only [processSubReplies, hlen, if_true] at hs
        rcases List.mem_cons.mp hs with h | h
        · exact h ▸ hlen
        · exact ih s h
      · simp only [processSubReplies, hlen, if_false] at hs
        exact ih s hs

/-- The per-page filter keeps at most as many replies as it is given. -/
theorem processSubReplies_length_le (minLen : Nat) :
    ∀ l : List RawReply, (processSubReplies minLen l).length ≤ l.length := by
  intro l
  induction l with
  | nil => simp [processSubReplies]
  | cons r rs ih =>
    obtain ⟨c, rp, rc⟩ := r
    cases c with
    | none => simpa [processSubReplies] using Nat.le_succ_of_le ih
    | some m =>
      by_cases hlen : minLen ≤ m.length
      · simpa [processSubReplies, hlen] using ih
      · simpa [processSubReplies, hlen] using Nat.le_succ_of_le ih

/-- When every given reply is well-formed and long enough, the per-page
filter keeps all of them. -/
theorem processSubReplies_length_all_pass (minLen : Nat) :
    ∀ l : List RawReply,
      (∀ r ∈ l, ∃ m, r.content = some m ∧ minLen ≤ m.length) →
      (processSubReplies minLen l).length = l.length := by
  intro l
  induction l with
  | nil => intro _; rfl
  | cons r rs ih =>
    intro hall
    obtain ⟨m, hm, hlen⟩ := hall r (List.mem_cons_self r rs)
    obtain ⟨c, rp, rc⟩ := r
    simp only at hm
    subst hm
    simp [processSubReplies, hlen,
      ih (fun x hx => hall x (List.mem_cons_of_mem _ hx))]

/-- Every root comment kept by `_process_main_replies` meets the minimum
length. -/
theorem processMainReplies_minLen (minLen : Nat) :
    ∀ l : List RawReply, ∀ c ∈ processMainReplies minLen l,
      minLen ≤ c.message.length := by
  intro l
  induction l with
  | nil => intro c hc; simp [processMainReplies] at hc
  | cons r rs ih =>
    obtain ⟨c0, rp, rc⟩ := r
    intro c hc
    cases c0 with
    | none => exact ih c (by simpa [processMainReplies] using hc)
    | some m =>
      by_cases hlen : minLen ≤ m.length
      · simp only [processMainReplies, hlen, if_true] at hc
        rcases List.mem_cons.mp hc with h | h
        · rw [h]; exact hlen
        · exact ih c h
      · simp only [processMainReplies, hlen, if_false] at hc
        exact ih c hc

/-- When every given root is well-formed and long enough,
`_process_main_replies` keeps all of them. -/
theorem processMainReplies_length_all_pass (minLen : Nat) :
    ∀ l : List RawReply,
      (∀ r ∈ l, ∃ m, r.content = some m ∧ minLen ≤ m.length) →
      (processMainReplies minLen l).length = l.length := by
  intro l
  induction l with
  | nil => intro _; rfl
  | cons r rs ih =>
    intro hall
    obtain ⟨m, hm, hlen⟩ := hall r (List.mem_cons_self r rs)
    obtain ⟨c, rp, rc⟩ := r
    simp only at hm
    subst hm
    simp [processMainReplies, hlen,
      ih (fun x hx => hall x (List.mem_cons_of_mem _ hx))]

/-- Splitting the expected-delay list of an exhausted retry run at its
first element. -/
theorem range_map_delay_cons (mr B i : Nat) (att : Nat → Attempt)
    (h : i < mr - 1) :
    (List.range (mr - 1 - i)).map (fun k => delayFor B (i + k) (att (i + k))) =
      delayFor B i (att i) ::
        (List.range (mr - 1 - (i + 1))).map
          (fun k => delayFor B (i + 1 + k) (att (i + 1 + k))) := by
  obtain ⟨n, hn⟩ : ∃ n, mr - 1 - i = n + 1 := ⟨mr - 2 - i, by omega⟩
  have hn2 : mr - 1 - (i + 1) = n := by omega
  rw [hn, hn2, List.range_succ_eq_map, List.map_cons, List.map_map]
  refine congrArg₂ _ (by simp) (List.map_congr_left ?_)
  intro k _
  have h1 : i + (k + 1) = i + 1 + k := by omega
  show delayFor B (i + (k + 1)) (att (i + (k + 1))) =
    delayFor B (i + 1 + k) (att (i + 1 + k))
  rw [h1]

/-- A retry run whose every attempt fails with a retryable outcome uses
exactly the remaining attempt budget, ends exhausted, and sleeps
`delayFor` after every attempt but the last. -/
theorem fetchRetryGo_all_retryable (mr B : Nat) (att : Nat → Attempt)
    (hatt : ∀ i, i < mr → (att i).retryable = true) :
    ∀ fuel i, fuel = mr - i → i ≤ mr →
      fetchRetryGo mr B att i fuel =
        ⟨.exhausted,
         (List.range (mr - 1 - i)).map (fun k => delayFor B (i + k) (att (i + k))),
         mr - i⟩ := by
  intro fuel
  induction fuel with
  | zero =>
    intro i hf hi
    have him : i = mr := by omega
    rw [him, show mr - 1 - mr = 0 from by omega, show mr - mr = 0 from by omega]
    simp only [List.range_zero, List.map_nil]
    rfl
  | succ f ih =>
    intro i hf hi
    have hilt : i < mr := by omega
    have hr := hatt i hilt
    have hcl : classifyAttempt (att i) = .retry := by
      revert hr
      unfold Attempt.retryable
      cases classifyAttempt (att i) <;> simp
    have hunf : fetchRetryGo mr B att i (f + 1) =
        match classifyAttempt (att i) with
        | .success p => ⟨.success p, [], 1⟩
        | .closed => ⟨.closed, [], 1⟩
        | .retry =>
          if i < mr - 1 then
            let r := fetchRetryGo mr B att (i + 1) f
            (⟨r.outcome, delayFor B i (att i) :: r.delays, r.attempts + 1⟩ :
              RetryResult)
          else ⟨.exhausted, [], 1⟩ := rfl
    rw [hunf, hcl]
    show (if i < mr - 1 then
        let r := fetchRetryGo mr B att (i + 1) f
        (⟨r.outcome, delayFor B i (att i) :: r.delays, r.attempts + 1⟩ :
          RetryResult)
      else ⟨.exhausted, [], 1⟩) = _
    by_cases hlast : i < mr - 1
    · rw [if_pos hlast, ih (i + 1) (by omega) (by omega),
        range_map_delay_cons mr B i att hlast]
      have h3 : mr - (i + 1) + 1 = mr - i := by omega
      simp [h3]
    · rw [if_neg hlast]
      have h1 : mr - 1 - i = 0 := by omega
      have h2 : mr - i = 1 := by omega
      simp [h1, h2]

/-- Full-run version of `fetchRetryGo_all_retryable`, at attempt 0. -/
theorem fetchRetry_all_retryable (mr B : Nat) (att : Nat → Attempt)
    (hatt : ∀ i, i < mr → (att i).retryable = true) :
    fetchRetry mr B att =
      ⟨.exhausted,
       (List.range (mr - 1)).map (fun k => delayFor B k (att k)),
       mr⟩ := by
  have h := fetchRetryGo_all_retryable mr B att hatt mr 0 (by omega) (by omega)
  simpa [fetchRetry] using h

/-- Invariant of the reply-thread page loop: with a fetched-count that
mirrors the accumulator length, every collected reply text meets the
minimum length and the per-thread cap is never exceeded. -/
theorem subLoopGo_invariant (cfg : Config) (att : Nat → Nat → Attempt) :
    ∀ fuel pageNum fetched acc, fetched = acc.length →
      acc.length ≤ cfg.maxReplies →
      (∀ s ∈ acc, cfg.minLen ≤ s.length) →
      (∀ s ∈ (subLoopGo cfg att fuel pageNum fetched acc).comments,
        cfg.minLen ≤ s.length) ∧
      (subLoopGo cfg att fuel pageNum fetched acc).comments.length ≤
        cfg.maxReplies := by
  intro fuel
  induction fuel with
  | zero =>
    intro pageNum fetched acc _ hcap hmin
    exact ⟨hmin, hcap⟩
  | succ f ih =>
    intro pageNum fetched acc hlen hcap hmin
    cases ho : (fetchRetry cfg.maxRetries cfg.baseDelay (att pageNum)).outcome with
    | closed => simp only [subLoopGo, ho]; exact ⟨hmin, hcap⟩
    | exhausted => simp only [subLoopGo, ho]; exact ⟨hmin, hcap⟩
    | success p =>
      simp only [subLoopGo, ho]
      by_cases he : p.replies.isEmpty
      · simp only [he, if_true]; exact ⟨hmin, hcap⟩
      · simp only [he, if_false]
        by_cases hfull : cfg.maxReplies ≤ fetched
        · simp only [hfull, if_true]; exact ⟨hmin, hcap⟩
        · simp only [hfull, if_false]
          have haccept :
              (processSubReplies cfg.minLen
                (p.replies.take (cfg.maxReplies - fetched))).length ≤
                cfg.maxReplies - fetched := by
            calc (processSubReplies cfg.minLen
                    (p.replies.take (cfg.maxReplies - fetched))).length
                ≤ (p.replies.take (cfg.maxReplies - fetched)).length :=
                  processSubReplies_length_le _ _
              _ ≤ cfg.maxReplies - fetched := by
                  rw [List.length_take]; exact Nat.min_le_left _ _
          have hmin' : ∀ s ∈ acc ++ processSubReplies cfg.minLen
              (p.replies.take (cfg.maxReplies - fetched)),
              cfg.minLen ≤ s.length := by
            intro s hs
            rcases List.mem_append.mp hs with h | h
            · exact hmin s h
            · exact processSubReplies_minLen _ _ s h
          have hcap' : (acc ++ processSubReplies cfg.minLen
              (p.replies.take (cfg.maxReplies - fetched))).length ≤
              cfg.maxReplies := by
            rw [List.length_append]; omega
          by_cases hmet : cfg.maxReplies ≤ fetched +
              (processSubReplies cfg.minLen
                (p.replies.take (cfg.maxReplies - fetched))).length
          · simp only [hmet, if_true]; exact ⟨hmin', hcap'⟩
          · simp only [hmet, if_false]
            by_cases hend : p.isEnd
            · simp only [hend, if_true]; exact ⟨hmin', hcap'⟩
            · simp only [hend, if_false]
              have := ih (pageNum + 1)
                (fetched + (processSubReplies cfg.minLen
                  (p.replies.take (cfg.maxReplies - fetched))).length)
                (acc ++ processSubReplies cfg.minLen
                  (p.replies.take (cfg.maxReplies - fetched)))
                (by rw [List.length_append]; omega) hcap' hmin'
              exact this

/-- C1, corrected half: the claim that reply text is accepted regardless
of length is false on the code.  With `MinLength = 5`, a reply page whose
single reply text is `"hi"` (length 2, well-formed `content`) yields an
empty collected thread: the reply is neither appended nor counted, because
`_fetch_sub_comments` line 266 applies the same minimum-length filter to
replies that `_process_main_replies` applies to roots. -/
theorem reply_length_filter_counterexample :
    (subFetchAll demoCfg shortReplyAtt).comments = [] ∧
    (subFetchAll demoCfg shortReplyAtt).comments ≠ ["hi"] := by decide

/-- C1 (amended): a reply is appended to its root's thread, and counted
toward the per-thread cap `MaxRepliesPerRoot`, only if its text passes the
minimum-length filter; every collected reply text has length at least
`MinLength`, and the number of collected (accepted) replies never exceeds
the cap. -/
theorem reply_length_filter_applied (cfg : Config) (att : Nat → Nat → Attempt) :
    (∀ s ∈ (subFetchAll cfg att).comments, cfg.minLen ≤ s.length) ∧
    (subFetchAll cfg att).comments.length ≤ cfg.maxReplies := by
  exact subLoopGo_invariant cfg att (subMaxPages cfg) 1 0 [] rfl
    (Nat.zero_le _) (by intro s hs; simp at hs)

/-- Witness for `reply_length_filter_applied` at a concrete accepted
reply. -/
theorem reply_length_filter_applied_witness :
    "helloworld" ∈ (subFetchAll demoCfg longReplyAtt).comments ∧
    demoCfg.minLen ≤ ("helloworld" : String).length := by
  have h := reply_length_filter_applied demoCfg longReplyAtt
  have hm : "helloworld" ∈ (subFetchAll demoCfg longReplyAtt).comments := by decide
  exact ⟨hm, h.1 _ hm⟩

/-- C5, corrected half: the claim that the inter-attempt delay always
equals `BaseDelay * attemptNumber` is false on the code.  A root/reply
page request that fails every attempt with HTTP 500 (`MaxRetries = 3`,
`BaseDelay = 2`) sleeps the constant `BaseDelay` between attempts —
`[2, 2]`, not the claimed `[2 * 1, 2 * 2]` — because the linear backoff of
lines 162/301 is applied only when `response.status == 412`. -/
theorem page_retry_delay_counterexample :
    (fetchRetry 3 2 (fun _ => Attempt.response 500 none)).delays = [2, 2] ∧
    (fetchRetry 3 2 (fun _ => Attempt.response 500 none)).delays ≠
      [2 * 1, 2 * 2] := by decide

/-- C5 (amended): a root-comment or reply page request that fails on every
attempt makes exactly `MaxRetries` attempts and ends exhausted; the delay
slept after failed attempt number `n` (1-based `n = k + 1`) is
`BaseDelay * n` when that failure is an HTTP 412 response or a transport
error, and the constant `BaseDelay` for any other retryable failure
(`delayFor`). -/
theorem page_retry_policy (mr B : Nat) (att : Nat → Attempt)
    (hatt : ∀ i, i < mr → (att i).retryable = true) :
    (fetchRetry mr B att).attempts = mr ∧
    (fetchRetry mr B att).outcome = .exhausted ∧
    (fetchRetry mr B att).delays =
      (List.range (mr - 1)).map (fun k => delayFor B k (att k)) := by
  rw [fetchRetry_all_retryable mr B att hatt]
  exact ⟨rfl, rfl, rfl⟩

/-- Witness for `page_retry_policy`: three transport failures with
`MaxRetries = 3`, `BaseDelay = 2` make 3 attempts with linearly growing
delays `[2, 4]`. -/
theorem page_retry_policy_witness :
    (fetchRetry 3 2 (fun _ => Attempt.net)).attempts = 3 ∧
    (fetchRetry 3 2 (fun _ => Attempt.net)).outcome = .exhausted ∧
    (fetchRetry 3 2 (fun _ => Attempt.net)).delays =
      (List.range (3 - 1)).map (fun k => delayFor 2 k ((fun _ => Attempt.net) k)) :=
  page_retry_policy 3 2 (fun _ => Attempt.net) (fun _ _ => rfl)

/-- Splitting the expected-delay list of an exhausted resolution run at
its first element. -/
theorem range_map_aid_cons (mr B i : Nat) (h : i < mr - 1) :
    (List.range (mr - 1 - i)).map (fun k => B * (i + k + 1)) =
      B * (i + 1) ::
        (List.range (mr - 1 - (i + 1))).map (fun k => B * (i + 1 + k + 1)) := by
  obtain ⟨n, hn⟩ : ∃ n, mr - 1 - i = n + 1 := ⟨mr - 2 - i, by omega⟩
  have hn2 : mr - 1 - (i + 1) = n := by omega
  rw [hn, hn2, List.range_succ_eq_map, List.map_cons, List.map_map]
  refine congrArg₂ _ (by simp) (List.map_congr_left ?_)
  intro k _
  show B * (i + (k + 1) + 1) = B * (i + 1 + k + 1)
  congr 1
  omega

/-- A resolution run whose every attempt fails with a retryable outcome
uses exactly the remaining attempt budget, resolves nothing, and sleeps
the linear backoff `B * attemptNumber` after every attempt but the last. -/
theorem getAidGo_all_retry (mr B : Nat) (att : Nat → AidAttempt)
    (hatt : ∀ i, i < mr → classifyAid (att i) = .retry) :
    ∀ fuel i, fuel = mr - i → i ≤ mr →
      getAidGo mr B att i fuel =
        ⟨none, (List.range (mr - 1 - i)).map (fun k => B * (i + k + 1)), mr - i⟩ := by
  intro fuel
  induction fuel with
  | zero =>
    intro i hf hi
    have him : i = mr := by omega
    rw [him, show mr - 1 - mr = 0 from by omega, show mr - mr = 0 from by omega]
    simp only [List.range_zero, List.map_nil]
    rfl
  | succ f ih =>
    intro i hf hi
    have hcl := hatt i (by omega)
    have hunf : getAidGo mr B att i (f + 1) =
        match classifyAid (att i) with
        | .found a => ⟨some a, [], 1⟩
        | .fatal => ⟨none, [], 1⟩
        | .retry =>
          if i < mr - 1 then
            let r := getAidGo mr B att (i + 1) f
            (⟨r.aid, B * (i + 1) :: r.delays, r.attempts + 1⟩ : AidResult)
          else ⟨none, [], 1⟩ := rfl
    rw [hunf, hcl]
    show (if i < mr - 1 then
        let r := getAidGo mr B att (i + 1) f
        (⟨r.aid, B * (i + 1) :: r.delays, r.attempts + 1⟩ : AidResult)
      else ⟨none, [], 1⟩) = _
    by_cases hlast : i < mr - 1
    · rw [if_pos hlast, ih (i + 1) (by omega) (by omega),
        range_map_aid_cons mr B i hlast]
      have h3 : mr - (i + 1) + 1 = mr - i := by omega
      simp [h3]
    · rw [if_neg hlast]
      have h1 : mr - 1 - i = 0 := by omega
      have h2 : mr - i = 1 := by omega
      simp [h1, h2]

/-- C7: a "not found" (`-404`) resolution response is terminal with no
retry (one attempt, no delays); a resolution whose every attempt fails
with a transport error or another nonzero code is retried up to exactly
`MaxRetries` attempts with linear delays `BaseDelay * attemptNumber`; and
a failed resolution is terminal for the whole item — the result carries
the error and an empty comment list. -/
theorem resolution_failure_policy (cfg : Config) :
    (∀ att : Nat → AidAttempt, 0 < cfg.maxRetries → att 0 = .notFound →
       getAid cfg att = ⟨none, [], 1⟩) ∧
    (∀ att : Nat → AidAttempt,
       (∀ i, i < cfg.maxRetries → att i = .err ∨ att i = .net) →
       getAid cfg att =
         ⟨none, (List.range (cfg.maxRetries - 1)).map
            (fun k => cfg.baseDelay * (k + 1)), cfg.maxRetries⟩) ∧
    (∀ (cookies : Cookies) (url : String) (env : CrawlEnv) (b : String),
       extractBvid url = some b → cookies.falsy = false →
       (getAid cfg env.aidAttempts).aid = none →
       getComments cfg cookies url env =
         ⟨some b, [], some ("Failed to get AID for BVID " ++ b ++ ".")⟩) := by
  refine ⟨?_, ?_, ?_⟩
  · intro att hmr h0
    obtain ⟨f, hf⟩ : ∃ f, cfg.maxRetries = f + 1 := ⟨cfg.maxRetries - 1, by omega⟩
    have hcl : classifyAid (att 0) = .fatal := by rw [h0]; rfl
    unfold getAid
    rw [hf]
    simp only [getAidGo, hcl]
  · intro att hatt
    have hcl : ∀ i, i < cfg.maxRetries → classifyAid (att i) = .retry := by
      intro i hi
      rcases hatt i hi with h | h <;> rw [h] <;> rfl
    have h := getAidGo_all_retry cfg.maxRetries cfg.baseDelay att hcl
      cfg.maxRetries 0 (by omega) (by omega)
    simpa [getAid] using h
  · intro cookies url env b hb hc haid
    simp [getComments, getCommentsFull, hb, hc, haid]

/-- Witness for `resolution_failure_policy` at concrete environments. -/
theorem resolution_failure_policy_witness :
    getAid demoCfg (fun _ => AidAttempt.notFound) = ⟨none, [], 1⟩ ∧
    getAid demoCfg (fun _ => AidAttempt.err) =
      ⟨none, (List.range (demoCfg.maxRetries - 1)).map
        (fun k => demoCfg.baseDelay * (k + 1)), demoCfg.maxRetries⟩ ∧
    getComments demoCfg (.str "c") "BVabcdefghij" demoEnvFail =
      ⟨some "BVabcdefghij", [],
        some ("Failed to get AID for BVID " ++ "BVabcdefghij" ++ ".")⟩ := by
  have h := resolution_failure_policy demoCfg
  exact ⟨h.1 _ (by decide) rfl, h.2.1 _ (fun i _ => Or.inl rfl),
    h.2.2 _ _ _ _ (by decide) (by decide) (by decide)⟩

/-- Later-page failures of the root loop never set the item error. -/
theorem mainLoopGo_error_none_of_ge_two (cfg : Config)
    (att : Nat → Nat → Attempt) (aid : Nat) :
    ∀ fuel p acc, 2 ≤ p →
      (mainLoopGo cfg att aid fuel p acc).error = none := by
  intro fuel
  induction fuel with
  | zero => intro p acc _; rfl
  | succ f ih =>
    intro p acc hp
    cases hm : mainPageFetch cfg att p with
    | none =>
      simp only [mainLoopGo, hm]
      have hno : ¬(p = 1 ∧ acc.isEmpty = true) := by
        rintro ⟨h1, _⟩; omega
      rw [if_neg hno]
    | some pl =>
      simp only [mainLoopGo, hm]
      by_cases he : pl.replies.isEmpty
      · simp [he]
      · simp only [he, if_false]
        by_cases hcap : cfg.maxNum ≤ acc.length
        · simp [hcap]
        · simp only [hcap, if_false]
          exact ih (p + 1) _ (by omega)

/-- The root loop only ever appends to the accumulator it is given. -/
theorem mainLoopGo_comments_prefix (cfg : Config)
    (att : Nat → Nat → Attempt) (aid : Nat) :
    ∀ fuel p acc, ∃ rest,
      (mainLoopGo cfg att aid fuel p acc).comments = acc ++ rest := by
  intro fuel
  induction fuel with
  | zero => intro p acc; exact ⟨[], by simp [mainLoopGo]⟩
  | succ f ih =>
    intro p acc
    cases hm : mainPageFetch cfg att p with
    | none =>
      simp only [mainLoopGo, hm]
      by_cases h1 : p = 1 ∧ acc.isEmpty = true
      · rw [if_pos h1]; exact ⟨[], by simp⟩
      · rw [if_neg h1]; exact ⟨[], by simp⟩
    | some pl =>
      simp only [mainLoopGo, hm]
      by_cases he : pl.replies.isEmpty
      · simp only [he, if_true]; exact ⟨[], by simp⟩
      · simp only [he, if_false]
        by_cases hcap : cfg.maxNum ≤ acc.length
        · simp only [hcap, if_true]; exact ⟨[], by simp⟩
        · simp only [hcap, if_false]
          obtain ⟨rest, hrest⟩ := ih (p + 1)
            (acc ++ (processMainReplies cfg.minLen pl.replies).take
              (cfg.maxNum - acc.length))
          exact ⟨(processMainReplies cfg.minLen pl.replies).take
              (cfg.maxNum - acc.length) ++ rest,
            by simpa [List.append_assoc] using hrest⟩

/-- C6, corrected half: the claim that an exhausted root-page request
never surfaces an error is false on the code.  When the very first root
page fails every retry (here: all transport errors), `get_comments` sets
the item error (source lines 372-375). -/
theorem root_page_first_failure_error :
    (rootHarvest demoCfg attAllFail 7).error =
      some "Failed initial comment fetch/Comments closed: AID 7." ∧
    (rootHarvest demoCfg attAllFail 7).error ≠ none := by decide

/-- C6 (amended): a root-comment page whose every retry fails stops
pagination and keeps every previously collected root; no error is
surfaced unless the failure happens on the very first page — the harvest
error is set exactly when page 1 yields no data. -/
theorem root_page_soft_end (cfg : Config) (att : Nat → Nat → Attempt)
    (aid : Nat) (hM : 0 < cfg.maxNum) (hP : 0 < cfg.pageSize) :
    ((rootHarvest cfg att aid).error ≠ none ↔
      mainPageFetch cfg att 1 = none) ∧
    (∀ fuel p acc, ∃ rest,
      (mainLoopGo cfg att aid fuel p acc).comments = acc ++ rest) := by
  refine ⟨?_, mainLoopGo_comments_prefix cfg att aid⟩
  have hmp : 1 ≤ mainMaxPages cfg := by
    unfold mainMaxPages
    rw [Nat.le_div_iff_mul_le hP]
    omega
  obtain ⟨f, hf⟩ : ∃ f, mainMaxPages cfg = f + 1 :=
    ⟨mainMaxPages cfg - 1, by omega⟩
  unfold rootHarvest
  rw [hf]
  cases hm : mainPageFetch cfg att 1 with
  | none =>
    simp only [mainLoopGo, hm]
    simp
  | some pl =>
    have herr : (mainLoopGo cfg att aid (f + 1) 1 []).error = none := by
      simp only [mainLoopGo, hm]
      by_cases he : pl.replies.isEmpty
      · simp [he]
      · simp only [he, if_false]
        have hcap : ¬(cfg.maxNum ≤ ([] : List MainComment).length) := by
          simp only [List.length_nil]
          omega
        simp only [hcap, if_false]
        exact mainLoopGo_error_none_of_ge_two cfg att aid f 2 _ (by omega)
    rw [herr]
    simp [hm]

/-- Witness for `root_page_soft_end`: a run whose first page succeeds
surfaces no error. -/
theorem root_page_soft_end_witness :
    (rootHarvest demoCfg longReplyAtt 7).error = none := by
  have h := root_page_soft_end demoCfg longReplyAtt 7 (by decide) (by decide)
  by_contra hne
  exact absurd (h.1.mp hne) (by decide)

/-- C9, corrected half: the claim that a missing credentials bundle always
surfaces the configuration error is false on the code: the BVID extraction
runs first (source lines 334-339), so with empty cookies and an item
reference carrying no BVID the result carries the extraction error
instead. -/
theorem missing_credentials_counterexample :
    (getComments demoCfg (.str "") "https://example.com/video" demoEnvFail).error =
      some "Failed to extract BVID from URL." ∧
    (getComments demoCfg (.str "") "https://example.com/video" demoEnvFail).error ≠
      some "Cookies not loaded." := by decide

/-- C9 (amended): with an absent or empty credentials bundle, for every
item reference from which a BVID can be extracted, harvesting fails fast
with the configuration error, an empty comment list, and zero network
requests (hence no retry); when no BVID is extractable the extraction
error takes precedence. -/
theorem missing_credentials_config_error (cfg : Config) (cookies : Cookies)
    (url : String) (env : CrawlEnv) (b : String)
    (hb : extractBvid url = some b) (hc : cookies.falsy = true) :
    getCommentsFull cfg cookies url env =
      (⟨some b, [], some "Cookies not loaded."⟩, 0) := by
  simp [getCommentsFull, hb, hc]

/-- Witness for `missing_credentials_config_error` at an empty cookie
string and a pure-BVID reference. -/
theorem missing_credentials_config_error_witness :
    getCommentsFull demoCfg (.str "") "BVabcdefghij" demoEnvFail =
      (⟨some "BVabcdefghij", [], some "Cookies not loaded."⟩, 0) :=
  missing_credentials_config_error demoCfg (.str "") "BVabcdefghij"
    demoEnvFail "BVabcdefghij" (by decide) (by decide)

/-- Flattening a root with no collected replies yields the root text
alone. -/
theorem flattenComment_nil (msg : String) : flattenComment msg [] = msg := by
  show msg ++ String.join [] = msg
  exact String.append_empty msg

/-- C10: upstream entries with a malformed `content` (not a dict, or
missing the `message` key) are skipped by both the root and the reply
filters without affecting the rest of the page, and an accepted root
whose `rpid` is missing triggers no reply fetch (zero reply-page
requests) even when its reply count is positive, being emitted with only
its own text. -/
theorem malformed_entries_skipped :
    (∀ (minLen : Nat) (l : List RawReply),
       processMainReplies minLen l =
         processMainReplies minLen (l.filter fun r => r.content.isSome)) ∧
    (∀ (minLen : Nat) (l : List RawReply),
       processSubReplies minLen l =
         processSubReplies minLen (l.filter fun r => r.content.isSome)) ∧
    (∀ (cfg : Config) (env : CrawlEnv) (m : MainComment), m.rpid = none →
       subCommentsFor cfg env m = [] ∧ subRequestsFor cfg env m = 0 ∧
       flattenComment m.message (subCommentsFor cfg env m) = m.message) := by
  refine ⟨?_, ?_, ?_⟩
  · intro minLen l
    induction l with
    | nil => rfl
    | cons r rs ih =>
      obtain ⟨c, rp, rc⟩ := r
      cases c with
      | none => simpa [processMainReplies, List.filter_cons] using ih
      | some m => simp [processMainReplies, List.filter_cons, ih]
  · intro minLen l
    induction l with
    | nil => rfl
    | cons r rs ih =>
      obtain ⟨c, rp, rc⟩ := r
      cases c with
      | none => simpa [processSubReplies, List.filter_cons] using ih
      | some m => simp [processSubReplies, List.filter_cons, ih]
  · intro cfg env m hm
    have hsub : subCommentsFor cfg env m = [] := by
      unfold subCommentsFor
      rw [hm]
    have hreq : subRequestsFor cfg env m = 0 := by
      unfold subRequestsFor
      rw [hm]
    exact ⟨hsub, hreq, by rw [hsub, flattenComment_nil]⟩

/-- Witness for `malformed_entries_skipped` at a concrete malformed entry
and a concrete rpid-less root with positive reply count. -/
theorem malformed_entries_skipped_witness :
    processMainReplies 5 [⟨none, some 1, 3⟩] =
      processMainReplies 5 ([⟨none, some 1, 3⟩].filter fun r => r.content.isSome) ∧
    processSubReplies 5 [⟨none, some 1, 3⟩] =
      processSubReplies 5 ([⟨none, some 1, 3⟩].filter fun r => r.content.isSome) ∧
    (subCommentsFor demoCfg demoEnvFail ⟨"hello", none, 4⟩ = [] ∧
     subRequestsFor demoCfg demoEnvFail ⟨"hello", none, 4⟩ = 0 ∧
     flattenComment "hello" (subCommentsFor demoCfg demoEnvFail ⟨"hello", none, 4⟩) =
       "hello") := by
  have h := malformed_entries_skipped
  exact ⟨h.1 5 _, h.2.1 5 _, h.2.2 demoCfg demoEnvFail ⟨"hello", none, 4⟩ rfl⟩

/-- Every root the root loop collects passed the minimum-length filter. -/
theorem mainLoopGo_collected_minLen (cfg : Config)
    (att : Nat → Nat → Attempt) (aid : Nat) :
    ∀ fuel p acc, (∀ m ∈ acc, cfg.minLen ≤ m.message.length) →
      ∀ m ∈ (mainLoopGo cfg att aid fuel p acc).comments,
        cfg.minLen ≤ m.message.length := by
  intro fuel
  induction fuel with
  | zero => intro p acc hacc; exact hacc
  | succ f ih =>
    intro p acc hacc
    cases hm : mainPageFetch cfg att p with
    | none =>
      simp only [mainLoopGo, hm]
      by_cases h1 : p = 1 ∧ acc.isEmpty = true
      · rw [if_pos h1]; exact hacc
      · rw [if_neg h1]; exact hacc
    | some pl =>
      simp only [mainLoopGo, hm]
      by_cases he : pl.replies.isEmpty
      · simp only [he, if_true]; exact hacc
      · simp only [he, if_false]
        by_cases hcap : cfg.maxNum ≤ acc.length
        · simp only [hcap, if_true]; exact hacc
        · simp only [hcap, if_false]
          refine ih (p + 1) _ ?_
          intro m hmem
          rcases List.mem_append.mp hmem with h | h
          · exact hacc m h
          · exact processMainReplies_minLen cfg.minLen pl.replies m
              (List.take_subset _ _ h)

/-- On roots that all pass the length filter, the assembly loop is the
flattening map. -/
theorem assembleComments_eq_map (cfg : Config) (env : CrawlEnv)
    (acc : List MainComment)
    (h : ∀ m ∈ acc, cfg.minLen ≤ m.message.length) :
    assembleComments cfg env acc =
      acc.map fun m => flattenComment m.message (subCommentsFor cfg env m) := by
  induction acc with
  | nil => rfl
  | cons m ms ih =>
    have hm := h m (List.mem_cons_self m ms)
    have hns : ¬(m.message.length < cfg.minLen) := Nat.not_lt.mpr hm
    rw [assembleComments, List.filterMap_cons, if_neg hns]
    rw [assembleComments] at ih
    rw [ih fun x hx => h x (List.mem_cons_of_mem m hx), List.map_cons]

/-- C8: the harvest output list is the root accumulator, in discovery
order, mapped through flattening: each output string is the root text
followed by its collected replies — in the order the reply pagination
returned them — each prefixed with the reply marker; no reordering
happens anywhere between collection and output. -/
theorem output_order_and_shape (cfg : Config) (cookies : Cookies)
    (url : String) (env : CrawlEnv) (b : String) (a : Nat)
    (hb : extractBvid url = some b) (hc : cookies.falsy = false)
    (ha : (getAid cfg env.aidAttempts).aid = some a) :
    (getComments cfg cookies url env).comments =
      (rootHarvest cfg env.mainAttempts a).comments.map
        (fun m => flattenComment m.message (subCommentsFor cfg env m)) := by
  have hall : ∀ m ∈ (rootHarvest cfg env.mainAttempts a).comments,
      cfg.minLen ≤ m.message.length :=
    mainLoopGo_collected_minLen cfg env.mainAttempts a (mainMaxPages cfg) 1 []
      (by intro m hm; simp at hm)
  simp [getComments, getCommentsFull, hb, hc, ha,
    assembleComments_eq_map cfg env _ hall]

/-- Witness for `output_order_and_shape` on a successful run. -/
theorem output_order_and_shape_witness :
    (getComments demoCfg (.str "c") "BVabcdefghij" demoEnvOk).comments =
      (rootHarvest demoCfg demoEnvOk.mainAttempts 99).comments.map
        (fun m => flattenComment m.message (subCommentsFor demoCfg demoEnvOk m)) :=
  output_order_and_shape demoCfg (.str "c") "BVabcdefghij" demoEnvOk
    "BVabcdefghij" 99 (by decide) (by decide) (by decide)

/-- `b * ceil(a / b) ≥ a`: the page bound `ceil(cap / pageSize)` lets the
loops reach the cap. -/
theorem ceil_div_mul_ge (a b : Nat) (hb : 0 < b) :
    a ≤ b * ((a + b - 1) / b) := by
  rcases Nat.eq_zero_or_pos a with ha | ha
  · simp [ha]
  · have hrw : a + b - 1 = a - 1 + b := by omega
    rw [hrw, Nat.add_div_right _ hb, Nat.mul_succ]
    have hdm := Nat.div_add_mod (a - 1) b
    have hr : (a - 1) % b < b := Nat.mod_lt _ hb
    omega

/-- Under an ideal list upstream, every root-page fetch succeeds on the
first attempt with the corresponding chunk. -/
theorem mainPageFetch_listAtt (cfg : Config) (l : List RawReply) (p : Nat)
    (hmr : 0 < cfg.maxRetries) :
    mainPageFetch cfg (listMainAtt l cfg.pageSize) p =
      some ⟨0, (l.drop (cfg.pageSize * (p - 1))).take cfg.pageSize,
        decide (l.length ≤ cfg.pageSize * p)⟩ := by
  obtain ⟨f, hf⟩ : ∃ f, cfg.maxRetries = f + 1 := ⟨cfg.maxRetries - 1, by omega⟩
  unfold mainPageFetch fetchRetry
  rw [hf]
  rfl

/-- Under an ideal list upstream, every reply-page fetch succeeds on the
first attempt with the corresponding chunk. -/
theorem subFetch_listAtt (cfg : Config) (rs : List RawReply) (p : Nat)
    (hmr : 0 < cfg.maxRetries) :
    (fetchRetry cfg.maxRetries cfg.baseDelay (listSubAtt rs p)).outcome =
      .success ⟨0, (rs.drop (subPageSize * (p - 1))).take subPageSize,
        decide (rs.length ≤ subPageSize * p)⟩ := by
  obtain ⟨f, hf⟩ : ∃ f, cfg.maxRetries = f + 1 := ⟨cfg.maxRetries - 1, by omega⟩
  unfold fetchRetry
  rw [hf]
  rfl

/-- The root loop issues at most one page request per remaining page. -/
theorem mainLoopGo_requests_le (cfg : Config) (att : Nat → Nat → Attempt)
    (aid : Nat) :
    ∀ fuel p acc, (mainLoopGo cfg att aid fuel p acc).requests ≤ fuel := by
  intro fuel
  induction fuel with
  | zero => intro p acc; exact Nat.le_refl 0
  | succ f ih =>
    intro p acc
    cases hm : mainPageFetch cfg att p with
    | none =>
      simp only [mainLoopGo, hm]
      by_cases h1 : p = 1 ∧ acc.isEmpty = true
      · rw [if_pos h1]; show 1 ≤ f + 1; omega
      · rw [if_neg h1]; show 1 ≤ f + 1; omega
    | some pl =>
      simp only [mainLoopGo, hm]
      by_cases he : pl.replies.isEmpty
      · simp only [he, if_true]; show 1 ≤ f + 1; omega
      · simp only [he, if_false]
        by_cases hcap : cfg.maxNum ≤ acc.length
        · simp only [hcap, if_true]; show 1 ≤ f + 1; omega
        · simp only [hcap, if_false]
          exact Nat.succ_le_succ (ih (p + 1) _)

/-- The reply loop issues at most one page request per remaining page. -/
theorem subLoopGo_requests_le (cfg : Config) (att : Nat → Nat → Attempt) :
    ∀ fuel p fetched acc,
      (subLoopGo cfg att fuel p fetched acc).requests ≤ fuel := by
  intro fuel
  induction fuel with
  | zero => intro p fetched acc; exact Nat.le_refl 0
  | succ f ih =>
    intro p fetched acc
    cases ho : (fetchRetry cfg.maxRetries cfg.baseDelay (att p)).outcome with
    | closed => simp only [subLoopGo, ho]; show 1 ≤ f + 1; omega
    | exhausted => simp only [subLoopGo, ho]; show 1 ≤ f + 1; omega
    | success pl =>
      simp only [subLoopGo, ho]
      by_cases he : pl.replies.isEmpty
      · simp only [he, if_true]; show 1 ≤ f + 1; omega
      · simp only [he, if_false]
        by_cases hcap : cfg.maxReplies ≤ fetched
        · simp only [hcap, if_true]; show 1 ≤ f + 1; omega
        · simp only [hcap, if_false]
          by_cases hmet : cfg.maxReplies ≤ fetched +
              (processSubReplies cfg.minLen
                (pl.replies.take (cfg.maxReplies - fetched))).length
          · simp only [hmet, if_true]; show 1 ≤ f + 1; omega
          · simp only [hmet, if_false]
            by_cases hend : pl.isEnd
            · simp only [hend, if_true]; show 1 ≤ f + 1; omega
            · simp only [hend, if_false]
              exact Nat.succ_le_succ (ih (p + 1) _ _)

/-- Whenever the first root page yields data, the harvest surfaces no
error. -/
theorem rootHarvest_error_none_of_first_some (cfg : Config)
    (att : Nat → Nat → Attempt) (aid : Nat)
    (hM : 0 < cfg.maxNum) (hP : 0 < cfg.pageSize) (pl : PagePayload)
    (hm : mainPageFetch cfg att 1 = some pl) :
    (rootHarvest cfg att aid).error = none := by
  have hmp : 1 ≤ mainMaxPages cfg := by
    unfold mainMaxPages
    rw [Nat.le_div_iff_mul_le hP]
    omega
  obtain ⟨f, hf⟩ : ∃ f, mainMaxPages cfg = f + 1 :=
    ⟨mainMaxPages cfg - 1, by omega⟩
  unfold rootHarvest
  rw [hf]
  simp only [mainLoopGo, hm]
  by_cases he : pl.replies.isEmpty
  · simp [he]
  · simp only [he, if_false]
    have hcap : ¬(cfg.maxNum ≤ ([] : List MainComment).length) := by
      simp only [List.length_nil]
      omega
    simp only [hcap, if_false]
    exact mainLoopGo_error_none_of_ge_two cfg att aid f 2 _ (by omega)

/-- Counting invariant of the root loop over an ideal all-accepted
upstream list: on entry to page `p` the accumulator holds
`min (pageSize * (p-1)) (min available RootCap)` roots, and the loop ends
with exactly `min available RootCap` roots. -/
theorem mainLoopGo_listAtt_count (cfg : Config) (l : List RawReply) (aid : Nat)
    (hmr : 0 < cfg.maxRetries) (hps : 0 < cfg.pageSize)
    (hpass : ∀ r ∈ l, ∃ m, r.content = some m ∧ cfg.minLen ≤ m.length) :
    ∀ fuel p acc, p = mainMaxPages cfg + 1 - fuel → 1 ≤ p →
      acc.length =
        min (cfg.pageSize * (p - 1)) (min l.length cfg.maxNum) →
      (mainLoopGo cfg (listMainAtt l cfg.pageSize) aid fuel p
        acc).comments.length = min l.length cfg.maxNum := by
  have hceil : cfg.maxNum ≤ cfg.pageSize * mainMaxPages cfg :=
    ceil_div_mul_ge cfg.maxNum cfg.pageSize hps
  intro fuel
  induction fuel with
  | zero =>
    intro p acc hp h1 hlen
    show acc.length = min l.length cfg.maxNum
    have hpm : p - 1 = mainMaxPages cfg := by omega
    rw [hpm] at hlen
    omega
  | succ f ih =>
    intro p acc hp h1 hlen
    have hfetch := mainPageFetch_listAtt cfg l p hmr
    simp only [mainLoopGo, hfetch]
    have hchunklen : ((l.drop (cfg.pageSize * (p - 1))).take cfg.pageSize).length =
        min cfg.pageSize (l.length - cfg.pageSize * (p - 1)) := by
      rw [List.length_take, List.length_drop]
    by_cases he : ((l.drop (cfg.pageSize * (p - 1))).take cfg.pageSize).isEmpty
    · simp only [he, if_true]
      have h0 : ((l.drop (cfg.pageSize * (p - 1))).take cfg.pageSize).length = 0 := by
        cases hc : (l.drop (cfg.pageSize * (p - 1))).take cfg.pageSize
        · simp
        · rw [hc] at he; simp [List.isEmpty] at he
      show acc.length = min l.length cfg.maxNum
      omega
    · simp only [he, if_false]
      have hne : ((l.drop (cfg.pageSize * (p - 1))).take cfg.pageSize).length ≠ 0 := by
        intro h0
        rw [List.length_eq_zero] at h0
        rw [h0] at he
        simp at he
      have hlt : cfg.pageSize * (p - 1) < l.length := by omega
      by_cases hcap : cfg.maxNum ≤ acc.length
      · simp only [hcap, if_true]
        show acc.length = min l.length cfg.maxNum
        omega
      · simp only [hcap, if_false]
        have hpassc : ∀ r ∈ (l.drop (cfg.pageSize * (p - 1))).take cfg.pageSize,
            ∃ m, r.content = some m ∧ cfg.minLen ≤ m.length :=
          fun r hr => hpass r (List.drop_subset _ _ (List.take_subset _ _ hr))
        have hproc : (processMainReplies cfg.minLen
            ((l.drop (cfg.pageSize * (p - 1))).take cfg.pageSize)).length =
            ((l.drop (cfg.pageSize * (p - 1))).take cfg.pageSize).length :=
          processMainReplies_length_all_pass cfg.minLen _ hpassc
        have hmul : cfg.pageSize * p = cfg.pageSize * (p - 1) + cfg.pageSize := by
          cases p with
          | zero => omega
          | succ q => simp [Nat.mul_succ]
        have hlen' : (acc ++ (processMainReplies cfg.minLen
            ((l.drop (cfg.pageSize * (p - 1))).take cfg.pageSize)).take
              (cfg.maxNum - acc.length)).length =
            min (cfg.pageSize * (p + 1 - 1)) (min l.length cfg.maxNum) := by
          rw [List.length_append, List.length_take, hproc, hchunklen]
          have hp1 : p + 1 - 1 = p := by omega
          rw [hp1]
          omega
        exact ih (p + 1) _ (by omega) (by omega) hlen'

/-- A maximal-length entry passes the filter for any smaller minimum. -/
theorem longEntry_pass (minLen n : Nat) (h : minLen ≤ n) :
    ∃ m, (longEntry n).content = some m ∧ minLen ≤ m.length :=
  ⟨⟨List.replicate n 'x'⟩, rfl, by simpa [String.length] using h⟩

/-- C3, corrected half: the claim that the harvester returns
`min(available, RootCap)` accepted roots is false on the code.  With
`RootCap = 2`, `PageSize = 2`, `MinLength = 3` and an upstream holding two
short roots on page 1 followed by two long (accepted) roots on page 2,
the available accepted roots number 2 but the harvest returns 0: rejected
roots still occupy page slots, and the loop never looks past page
`ceil(RootCap / PageSize) = 1`.  The page-request bound itself holds. -/
theorem root_count_counterexample :
    (processMainReplies cfgC3.minLen rootsC3).length = 2 ∧
    (rootHarvest cfgC3 (listMainAtt rootsC3 cfgC3.pageSize) 7).comments.length = 0 ∧
    (rootHarvest cfgC3 (listMainAtt rootsC3 cfgC3.pageSize) 7).requests ≤ 1 ∧
    (0 : Nat) ≠ min 2 2 := by decide

/-- C3 (amended): when every root the upstream serves passes the length
filter, the harvester returns exactly `min(available, RootCap)` accepted
roots; unconditionally it issues at most `ceil(RootCap / PageSize)`
root-page requests, and such an ideal run surfaces no error.  (When some
served roots fail the filter, fewer than `min(available, RootCap)` roots
may be returned, as the counterexample shows.) -/
theorem root_harvest_count (cfg : Config) (l : List RawReply) (aid : Nat)
    (hmr : 0 < cfg.maxRetries) (hps : 0 < cfg.pageSize) (hM : 0 < cfg.maxNum)
    (hpass : ∀ r ∈ l, ∃ m, r.content = some m ∧ cfg.minLen ≤ m.length) :
    (rootHarvest cfg (listMainAtt l cfg.pageSize) aid).comments.length =
      min l.length cfg.maxNum ∧
    (rootHarvest cfg (listMainAtt l cfg.pageSize) aid).requests ≤
      mainMaxPages cfg ∧
    (rootHarvest cfg (listMainAtt l cfg.pageSize) aid).error = none := by
  refine ⟨?_, mainLoopGo_requests_le cfg _ aid (mainMaxPages cfg) 1 [],
    rootHarvest_error_none_of_first_some cfg _ aid hM hps _
      (mainPageFetch_listAtt cfg l 1 hmr)⟩
  exact mainLoopGo_listAtt_count cfg l aid hmr hps hpass (mainMaxPages cfg) 1 []
    (by omega) (by omega) (by simp)

/-- Witness for `root_harvest_count`: three accepted roots under cap 2
yield exactly 2 roots within the page budget. -/
theorem root_harvest_count_witness :
    (rootHarvest cfgC3 (listMainAtt [longEntry 5, longEntry 5, longEntry 5]
        cfgC3.pageSize) 7).comments.length =
      min ([longEntry 5, longEntry 5, longEntry 5] : List RawReply).length
        cfgC3.maxNum ∧
    (rootHarvest cfgC3 (listMainAtt [longEntry 5, longEntry 5, longEntry 5]
        cfgC3.pageSize) 7).requests ≤ mainMaxPages cfgC3 ∧
    (rootHarvest cfgC3 (listMainAtt [longEntry 5, longEntry 5, longEntry 5]
        cfgC3.pageSize) 7).error = none := by
  refine root_harvest_count cfgC3 _ 7 (by decide) (by decide) (by decide) ?_
  intro r hr
  simp only [List.mem_cons, List.not_mem_nil, or_false] at hr
  rcases hr with rfl | rfl | rfl <;> exact longEntry_pass _ 5 (by decide)

/-- Counting invariant of the reply loop over an ideal all-accepted
upstream thread: on entry to page `p` the fetched count and accumulator
hold `min (subPageSize * (p-1)) (min available MaxRepliesPerRoot)`
replies, and the loop ends with exactly `min available MaxRepliesPerRoot`
replies. -/
theorem subLoopGo_listAtt_count (cfg : Config) (rs : List RawReply)
    (hmr : 0 < cfg.maxRetries)
    (hpass : ∀ r ∈ rs, ∃ m, r.content = some m ∧ cfg.minLen ≤ m.length) :
    ∀ fuel p fetched acc, p = subMaxPages cfg + 1 - fuel → 1 ≤ p →
      fetched = acc.length →
      acc.length = min (subPageSize * (p - 1)) (min rs.length cfg.maxReplies) →
      (subLoopGo cfg (listSubAtt rs) fuel p fetched acc).comments.length =
        min rs.length cfg.maxReplies := by
  have hceil : cfg.maxReplies ≤ subPageSize * subMaxPages cfg :=
    ceil_div_mul_ge cfg.maxReplies subPageSize (by decide)
  have hsp : 0 < subPageSize := by decide
  intro fuel
  induction fuel with
  | zero =>
    intro p fetched acc hp h1 hf hlen
    show acc.length = min rs.length cfg.maxReplies
    have hpm : p - 1 = subMaxPages cfg := by omega
    rw [hpm] at hlen
    omega
  | succ f ih =>
    intro p fetched acc hp h1 hf hlen
    have hfetch := subFetch_listAtt cfg rs p hmr
    simp only [subLoopGo, hfetch]
    have hchunklen :
        ((rs.drop (subPageSize * (p - 1))).take subPageSize).length =
          min subPageSize (rs.length - subPageSize * (p - 1)) := by
      rw [List.length_take, List.length_drop]
    by_cases he : ((rs.drop (subPageSize * (p - 1))).take subPageSize).isEmpty
    · simp only [he, if_true]
      have h0 : ((rs.drop (subPageSize * (p - 1))).take subPageSize).length = 0 := by
        cases hc : (rs.drop (subPageSize * (p - 1))).take subPageSize
        · simp
        · rw [hc] at he; simp [List.isEmpty] at he
      show acc.length = min rs.length cfg.maxReplies
      omega
    · simp only [he, if_false]
      have hne : ((rs.drop (subPageSize * (p - 1))).take subPageSize).length ≠ 0 := by
        intro h0
        rw [List.length_eq_zero] at h0
        rw [h0] at he
        simp at he
      have hlt : subPageSize * (p - 1) < rs.length := by omega
      by_cases hcap : cfg.maxReplies ≤ fetched
      · simp only [hcap, if_true]
        show acc.length = min rs.length cfg.maxReplies
        omega
      · simp only [hcap, if_false]
        have hpassc : ∀ r ∈ ((rs.drop (subPageSize * (p - 1))).take
            subPageSize).take (cfg.maxReplies - fetched),
            ∃ m, r.content = some m ∧ cfg.minLen ≤ m.length :=
          fun r hr => hpass r (List.drop_subset _ _
            (List.take_subset _ _ (List.take_subset _ _ hr)))
        have hproc : (processSubReplies cfg.minLen
            (((rs.drop (subPageSize * (p - 1))).take subPageSize).take
              (cfg.maxReplies - fetched))).length =
            (((rs.drop (subPageSize * (p - 1))).take subPageSize).take
              (cfg.maxReplies - fetched)).length :=
          processSubReplies_length_all_pass cfg.minLen _ hpassc
        have htplen : (((rs.drop (subPageSize * (p - 1))).take subPageSize).take
            (cfg.maxReplies - fetched)).length =
            min (cfg.maxReplies - fetched)
              (min subPageSize (rs.length - subPageSize * (p - 1))) := by
          rw [List.length_take, hchunklen]
        have hmul : subPageSize * p = subPageSize * (p - 1) + subPageSize := by
          cases p with
          | zero => omega
          | succ q => simp [Nat.mul_succ]
        by_cases hmet : cfg.maxReplies ≤ fetched + (processSubReplies cfg.minLen
            (((rs.drop (subPageSize * (p - 1))).take subPageSize).take
              (cfg.maxReplies - fetched))).length
        · simp only [hmet, if_true]
          show (acc ++ processSubReplies cfg.minLen
              (((rs.drop (subPageSize * (p - 1))).take subPageSize).take
                (cfg.maxReplies - fetched))).length =
            min rs.length cfg.maxReplies
          rw [List.length_append, hproc, htplen]
          omega
        · simp only [hmet, if_false]
          by_cases hend : rs.length ≤ subPageSize * p
          · rw [if_pos (decide_eq_true hend)]
            show (acc ++ processSubReplies cfg.minLen
                (((rs.drop (subPageSize * (p - 1))).take subPageSize).take
                  (cfg.maxReplies - fetched))).length =
              min rs.length cfg.maxReplies
            rw [List.length_append, hproc, htplen]
            omega
          · rw [if_neg (fun hd => hend (of_decide_eq_true hd))]
            have hlen' : (acc ++ processSubReplies cfg.minLen
                (((rs.drop (subPageSize * (p - 1))).take subPageSize).take
                  (cfg.maxReplies - fetched))).length =
                min (subPageSize * (p + 1 - 1)) (min rs.length cfg.maxReplies) := by
              rw [List.length_append, hproc, htplen]
              have hp1 : p + 1 - 1 = p := by omega
              rw [hp1]
              omega
            have hf' : fetched + (processSubReplies cfg.minLen
                (((rs.drop (subPageSize * (p - 1))).take subPageSize).take
                  (cfg.maxReplies - fetched))).length =
                (acc ++ processSubReplies cfg.minLen
                  (((rs.drop (subPageSize * (p - 1))).take subPageSize).take
                    (cfg.maxReplies - fetched))).length := by
              rw [List.length_append, hf]
            exact ih (p + 1) _ _ (by omega) (by omega) hf' hlen'

/-- C4, corrected half: the claim that a thread with `R` available replies
yields `min(R, MaxRepliesPerRoot)` collected replies is false on the code.
With `MinLength = 3` and a thread holding one reply of text `"ab"`
(length 2), `R = 1` and cap 5, the harvest collects 0 replies, not
`min(1, 5) = 1`: the same minimum-length filter as for roots drops the
reply (source line 266). -/
theorem reply_count_counterexample :
    repliesC4.length = 1 ∧
    (subFetchAll cfgC4 (listSubAtt repliesC4)).comments.length = 0 ∧
    (0 : Nat) ≠ min 1 5 := by decide

/-- C4 (amended): when every reply the upstream serves for a thread passes
the length filter, the harvester collects exactly
`min(R, MaxRepliesPerRoot)` replies for that thread; unconditionally it
issues at most `ceil(MaxRepliesPerRoot / ReplyPageSize)` reply-page
requests (with `ReplyPageSize = 10` hard-coded), and it also stops on the
upstream end-of-thread cursor flag.  (When some served replies fail the
filter, fewer replies may be collected, as the counterexample shows.) -/
theorem reply_harvest_count (cfg : Config) (rs : List RawReply)
    (hmr : 0 < cfg.maxRetries) (_hC : 0 < cfg.maxReplies)
    (hpass : ∀ r ∈ rs, ∃ m, r.content = some m ∧ cfg.minLen ≤ m.length) :
    (subFetchAll cfg (listSubAtt rs)).comments.length =
      min rs.length cfg.maxReplies ∧
    (subFetchAll cfg (listSubAtt rs)).requests ≤ subMaxPages cfg := by
  refine ⟨?_, subLoopGo_requests_le cfg _ (subMaxPages cfg) 1 0 []⟩
  exact subLoopGo_listAtt_count cfg rs hmr hpass (subMaxPages cfg) 1 0 []
    (by omega) (by omega) rfl (by simp)

/-- Witness for `reply_harvest_count`: one accepted reply under cap 5
yields exactly `min 1 5 = 1` reply within the page budget. -/
theorem reply_harvest_count_witness :
    (subFetchAll cfgC4 (listSubAtt [longEntry 5])).comments.length =
      min ([longEntry 5] : List RawReply).length cfgC4.maxReplies ∧
    (subFetchAll cfgC4 (listSubAtt [longEntry 5])).requests ≤
      subMaxPages cfgC4 := by
  refine reply_harvest_count cfgC4 _ (by decide) (by decide) ?_
  intro r hr
  simp only [List.mem_cons, List.not_mem_nil, or_false] at hr
  rcases hr with rfl
  exact longEntry_pass _ 5 (by decide)

/-- C2 (code-bug demonstration): a run of two jobs in which job 1
completes with output `"A"` and the deadline fires while the loop awaits
job 2.  The `except asyncio.CancelledError: break` handler swallows the
cancellation, so `full_tool_operation` resumes, runs the optional LLM
summarization over the accumulator (the result depends on the summarizer,
as the third conjunct shows), and completes normally — `asyncio.wait_for`
(Python ≥ 3.8) then returns that value, so the `TimeoutError` branch never
runs and the artifact carries no truncation marker, contradicting the
claim (and the tool's own `timeout_seconds` field documentation).  The
accumulator content itself is exactly the one completed output `["A"]`,
as the claim demands. -/
theorem deadline_truncation_code_bug :
    (arunModel demoLlmA "q" 5 demoJobs (.atJobAwait 1)).timedOut = false ∧
    (arunModel demoLlmA "q" 5 demoJobs (.atJobAwait 1)).text =
      assembleOutputs demoLlmA "q" ["A"] true ∧
    (arunModel demoLlmA "q" 5 demoJobs (.atJobAwait 1)).text ≠
      (arunModel demoLlmB "q" 5 demoJobs (.atJobAwait 1)).text := by decide

end GameSage
